import Mathlib

/-!
Verification development for the macro-signal-backtester repository.

The repository ships documentation (its README describes the threshold
allocation rule) and a demo notebook (`notebooks/strategy_analysis.ipynb`);
the core pipeline modules (`src/signals`, `src/strategy`, `src/portfolio`,
`src/backtest`) referenced by the notebook are not present in the source
tree.  Definitions for those missing modules are therefore modelled from the
specification, as marked in each doc comment; the notebook's own code
(signal/returns alignment, rolling Sharpe) is embedded directly.

Numeric values are modelled as rationals; dates as naturals.  A missing or
NaN value is modelled as `Option.none`.  Square roots (needed only for the
scale of a normalized value and the Sharpe annualization) are abstracted as
an explicit function parameter `sqrt : ℚ → ℚ`; theorems that depend on its
behaviour take the relevant property (such as `sqrt x = 0 ↔ x = 0`) as a
hypothesis.
-/

namespace MacroBacktester

/-- The two tradable assets of the fixed two-asset switch (README: SPY as
risk-on, TLT as risk-off). -/
inductive Asset where
  | riskOn : Asset
  | riskOff : Asset
deriving DecidableEq, Repr

/-- A weight vector over the two assets. -/
structure Weights where
  wOn : ℚ
  wOff : ℚ
deriving DecidableEq, Repr

/-- The 100% risk-on allocation. -/
def fullRiskOn : Weights := ⟨1, 0⟩

/-- The 100% risk-off (de-risked) allocation. -/
def fullRiskOff : Weights := ⟨0, 1⟩

/-- The neutral 50/50 allocation. -/
def neutral : Weights := ⟨1/2, 1/2⟩

/-- Threshold pair for the allocation policy. -/
structure Thresholds where
  high : ℚ
  low : ℚ
deriving DecidableEq, Repr

/-- Configuration error: the policy requires `low ≤ high` and fails fast
otherwise. -/
inductive ConfigError where
  | badThresholds : ConfigError
deriving DecidableEq, Repr

/-- Modelled from the spec: `AllocationPolicy.allocate` (§4.2).  The core
`src/strategy` module is missing from the source tree; the rule is stated in
the README ("Signal > 0.5: 100% SPY; Signal < -0.5: 100% TLT; Neutral:
50/50") and §4.2: strict `>` against `thresholds.high` gives 100% risk-on,
strict `<` against `thresholds.low` gives 100% risk-off, otherwise the
neutral 50/50 split; `low ≤ high` is checked and its violation fails fast
as a configuration error. -/
def allocate (s : ℚ) (th : Thresholds) : Except ConfigError Weights :=
  if th.high < th.low then .error .badThresholds
  else if th.high < s then .ok fullRiskOn
  else if s < th.low then .ok fullRiskOff
  else .ok neutral

/-- Modelled from the spec: the per-date allocation step of §4.2's
missing-signal policy.  A missing or NaN signal value (modelled as `none`)
holds the previous date's weight vector unchanged; a present value is
passed to `allocate`. -/
def allocStep (prev : Weights) (s : Option ℚ) (th : Thresholds) :
    Except ConfigError Weights :=
  match s with
  | none => .ok prev
  | some v => allocate v th

/-- Arithmetic mean of a list of rationals (empty list gives `0`, by the
`0/0 = 0` convention of rational division). -/
def listMean (xs : List ℚ) : ℚ := xs.sum / xs.length

/-- Population variance of a list of rationals. -/
def listVar (xs : List ℚ) : ℚ :=
  ((xs.map fun x => (x - listMean xs) ^ 2).sum) / xs.length

/-- The rolling window of `window` values ending at position `i + window - 1`
of the value series, i.e. values at positions `i, …, i + window - 1`. -/
def windowAt (vals : List ℚ) (i window : ℕ) : List ℚ :=
  (vals.drop i).take window

/-- Modelled from the spec: `SignalNormalizer.normalize` (§4.1).  The core
`src/signals` module is missing from the source tree.  The input is a
time series of (date, value) pairs; for each date with at least `window`
observations up to and including it, the output value is
`(raw[t] - rolling_mean) / rolling_std` over that window, and is defined as
exactly `0` when the rolling standard deviation is `0` (zero-variance
policy); earlier dates produce no output value at all.  `rolling_std` is
`sqrt` of the rolling variance, with `sqrt` passed in explicitly; the
zero-variance branch tests the variance itself, so that it is exact. -/
def normalize (sqrt : ℚ → ℚ) (raw : List (ℕ × ℚ)) (window : ℕ) :
    List (ℕ × ℚ) :=
  if raw.length < window then []
  else
    (List.range (raw.length - window + 1)).map fun i =>
      let vals := raw.map Prod.snd
      let ws := windowAt vals i window
      let m := listMean ws
      let v := listVar ws
      let p := raw.getD (i + window - 1) (0, 0)
      (p.1, if v = 0 then 0 else (p.2 - m) / sqrt v)

/-- Daily simple returns of a NAV series: `nav[i+1] / nav[i] - 1`. -/
def dailyReturns (nav : List ℚ) : List ℚ :=
  (nav.zip (nav.drop 1)).map fun p => p.2 / p.1 - 1

/-- Sample variance (`ddof = 1`, matching the notebook's `x.std()`) of a
list of rationals. -/
def sampleVar (xs : List ℚ) : ℚ :=
  ((xs.map fun x => (x - listMean xs) ^ 2).sum) / ((xs.length : ℚ) - 1)

/-- Modelled from the spec: the Sharpe-ratio computation of
`PerformanceAnalyzer.analyze` (§4.4), whose `src/backtest` module is missing
from the source tree; its formula also appears verbatim in the notebook's
rolling-Sharpe cell (`(x.mean() / x.std()) * np.sqrt(252) if x.std() != 0
else 0`).  Sharpe = `mean(daily_returns) / stdev(daily_returns) * sqrt(252)`,
defined as `0` when the standard deviation is `0`, where
`stdev = sqrt (sampleVar …)`. -/
def sharpeRatio (sqrt : ℚ → ℚ) (nav : List ℚ) : ℚ :=
  let r := dailyReturns nav
  let sd := sqrt (sampleVar r)
  if sd = 0 then 0 else listMean r / sd * sqrt 252

/-- Embedded from the notebook's rolling-Sharpe cell: for each full
`window`-sized trailing window of the returns series, apply
`(x.mean() / x.std()) * np.sqrt(252) if x.std() != 0 else 0`.  The `ddof = 1`
standard deviation is `sqrt (sampleVar x)`. -/
def rollingSharpe (sqrt : ℚ → ℚ) (returns : List ℚ) (window : ℕ) : List ℚ :=
  if returns.length < window then []
  else
    (List.range (returns.length - window + 1)).map fun i =>
      let x := windowAt returns i window
      let sd := sqrt (sampleVar x)
      if sd = 0 then 0 else listMean x / sd * sqrt 252

/-- Per-date prices of the two assets; a missing price is `none`. -/
structure PriceRow where
  pOn : Option ℚ
  pOff : Option ℚ
deriving DecidableEq, Repr

/-- Errors that abort a simulation run (§4.3/§7): a missing price for an
asset with nonzero target weight, or a non-positive price. -/
inductive SimError where
  | dataGap (date : ℕ) (asset : Asset) : SimError
  | invalidPrice (date : ℕ) (asset : Asset) : SimError
deriving DecidableEq, Repr

/-- An immutable rebalancing record (§3). -/
structure Trade where
  date : ℕ
  asset : Asset
  weightDelta : ℚ
  cost : ℚ
deriving DecidableEq, Repr

/-- One output point of the NAV series (§3). -/
structure NAVPoint where
  date : ℕ
  nav : ℚ
  grossReturn : ℚ
  netReturn : ℚ
  drawdown : ℚ
deriving DecidableEq, Repr

/-- The simulator's per-date state (§3 `Position`): current weights, NAV,
running peak NAV, cumulative transaction costs, and whether the risk
overlay is active. -/
structure Position where
  weights : Weights
  nav : ℚ
  peak : ℚ
  cumCost : ℚ
  overlayActive : Bool
deriving DecidableEq, Repr

/-- Simulator configuration (§6): transaction-cost rate, the drawdown limit
and re-entry threshold of the risk overlay (both as positive magnitudes, so
the limit corresponds to drawdown `< -maxDrawdownLimit`), and the initial
capital. -/
structure SimConfig where
  costRate : ℚ
  maxDrawdownLimit : ℚ
  drawdownReentry : ℚ
  initialCapital : ℚ
deriving DecidableEq, Repr

/-- One input row of the simulation: the date, the day's target weights
from the allocation policy, and the day's prices. -/
structure DateRow where
  date : ℕ
  target : Weights
  prices : PriceRow
deriving DecidableEq, Repr

/-- Simple return of one asset given the previous and current price;
`0` when either price is unavailable (reachable only for an asset whose
effective target weight is zero, because of the data-gap check). -/
def assetReturn (prev cur : Option ℚ) : ℚ :=
  match prev, cur with
  | some p, some c => c / p - 1
  | _, _ => 0

/-- Modelled from the spec: the §4.3 data checks for one asset on one date.
A present non-positive price is an `InvalidPriceError`; a missing price is a
`DataGapError` when the asset's target weight `tw` is nonzero (prices are
never silently zero-filled). -/
def checkAsset (date : ℕ) (a : Asset) (price : Option ℚ) (tw : ℚ) :
    Except SimError Unit :=
  match price with
  | some p => if p ≤ 0 then .error (.invalidPrice date a) else .ok ()
  | none => if tw = 0 then .ok () else .error (.dataGap date a)

/-- Gross portfolio return (§4.3 step 1): the previously held weights
applied to each asset's price change. -/
def grossReturnOf (prevRow row : PriceRow) (w : Weights) : ℚ :=
  w.wOn * assetReturn prevRow.pOn row.pOn +
    w.wOff * assetReturn prevRow.pOff row.pOff

/-- Post-drift weights (§4.3 step 1): the held weights drifted by the
differential asset returns, renormalized by the gross return. -/
def driftWeights (prevRow row : PriceRow) (w : Weights) : Weights :=
  ⟨w.wOn * (1 + assetReturn prevRow.pOn row.pOn) /
      (1 + grossReturnOf prevRow row w),
   w.wOff * (1 + assetReturn prevRow.pOff row.pOff) /
      (1 + grossReturnOf prevRow row w)⟩

/-- Trade records (§4.3 step 3): one `Trade` per asset with nonzero weight
delta from the post-drift weights to the effective target, each with cost
`|delta| * notional * cost_rate`. -/
def tradesFor (date : ℕ) (drift target : Weights) (notional costRate : ℚ) :
    List Trade :=
  (([(Asset.riskOn, target.wOn - drift.wOn),
     (Asset.riskOff, target.wOff - drift.wOff)].filter
      fun p => p.2 != 0).map fun p =>
    ⟨date, p.1, p.2, |p.2| * notional * costRate⟩)

/-- Risk-overlay transition (§4.3 step 6) with hysteresis: activate when
drawdown falls strictly below `-maxDrawdownLimit`, deactivate when it
recovers strictly above `-drawdownReentry`, otherwise keep the current
state. -/
def overlayNext (cfg : SimConfig) (active : Bool) (dd : ℚ) : Bool :=
  if active then
    if -cfg.drawdownReentry < dd then false else true
  else
    if dd < -cfg.maxDrawdownLimit then true else false

/-- The day's trades (§4.3 steps 1–3); the notional for the cost is the
pre-cost NAV of the date, `NAV_{t-1} * (1 + gross_return)`. -/
def tradesAfter (cfg : SimConfig) (prevRow : PriceRow) (pos : Position)
    (date : ℕ) (effTarget : Weights) (row : PriceRow) : List Trade :=
  tradesFor date (driftWeights prevRow row pos.weights) effTarget
    (pos.nav * (1 + grossReturnOf prevRow row pos.weights)) cfg.costRate

/-- Total transaction cost of the date (§4.3 step 3). -/
def costAfter (cfg : SimConfig) (prevRow : PriceRow) (pos : Position)
    (date : ℕ) (effTarget : Weights) (row : PriceRow) : ℚ :=
  ((tradesAfter cfg prevRow pos date effTarget row).map Trade.cost).sum

/-- NAV update (§4.3 step 4):
`NAV_t = NAV_{t-1} * (1 + gross_return) - total_cost`. -/
def navAfter (cfg : SimConfig) (prevRow : PriceRow) (pos : Position)
    (date : ℕ) (effTarget : Weights) (row : PriceRow) : ℚ :=
  pos.nav * (1 + grossReturnOf prevRow row pos.weights) -
    costAfter cfg prevRow pos date effTarget row

/-- Running-peak update (§4.3 step 5). -/
def peakAfter (cfg : SimConfig) (prevRow : PriceRow) (pos : Position)
    (date : ℕ) (effTarget : Weights) (row : PriceRow) : ℚ :=
  max pos.peak (navAfter cfg prevRow pos date effTarget row)

/-- Drawdown of the date (§4.3 step 5): `NAV_t / peak - 1`. -/
def ddAfter (cfg : SimConfig) (prevRow : PriceRow) (pos : Position)
    (date : ℕ) (effTarget : Weights) (row : PriceRow) : ℚ :=
  navAfter cfg prevRow pos date effTarget row /
      peakAfter cfg prevRow pos date effTarget row - 1

/-- Modelled from the spec: the pure part of the §4.3 per-date step, after
the data checks have passed, given the effective (post-overlay) target
weights: the updated `Position`, the date's `NAVPoint`, and its trades. -/
def stepCore (cfg : SimConfig) (prevRow : PriceRow) (pos : Position)
    (date : ℕ) (effTarget : Weights) (row : PriceRow) :
    Position × NAVPoint × List Trade :=
  (⟨effTarget,
    navAfter cfg prevRow pos date effTarget row,
    peakAfter cfg prevRow pos date effTarget row,
    pos.cumCost + costAfter cfg prevRow pos date effTarget row,
    overlayNext cfg pos.overlayActive (ddAfter cfg prevRow pos date effTarget row)⟩,
   ⟨date,
    navAfter cfg prevRow pos date effTarget row,
    grossReturnOf prevRow row pos.weights,
    navAfter cfg prevRow pos date effTarget row / pos.nav - 1,
    ddAfter cfg prevRow pos date effTarget row⟩,
   tradesAfter cfg prevRow pos date effTarget row)

/-- Effective target of the date (§4.3 step 2): the policy target,
overridden with the de-risked 100% risk-off allocation while the risk
overlay is active. -/
def effTargetOf (pos : Position) (target : Weights) : Weights :=
  if pos.overlayActive then fullRiskOff else target

/-- Modelled from the spec: one full §4.3 per-date step.  The data checks
run against the effective target (risk-on asset first) and abort the step
with the §4.3 error on failure. -/
def step (cfg : SimConfig) (prevRow : PriceRow) (pos : Position)
    (date : ℕ) (target : Weights) (row : PriceRow) :
    Except SimError (Position × NAVPoint × List Trade) :=
  match checkAsset date .riskOn row.pOn (effTargetOf pos target).wOn with
  | .error e => .error e
  | .ok _ =>
    match checkAsset date .riskOff row.pOff (effTargetOf pos target).wOff with
    | .error e => .error e
    | .ok _ => .ok (stepCore cfg prevRow pos date (effTargetOf pos target) row)

/-- Modelled from the spec: the simulator's walk over the remaining dates,
threading the previous date's prices and `Position`.  It returns the NAV
series, the trade log, and the per-date `Position` trace, or the first
error; on an error no output series is returned at all. -/
def runAux (cfg : SimConfig) (prevRow : PriceRow) (pos : Position) :
    List DateRow → Except SimError (List NAVPoint × List Trade × List Position)
  | [] => .ok ([], [], [])
  | r :: rest =>
    match step cfg prevRow pos r.date r.target r.prices with
    | .error e => .error e
    | .ok (pos1, np, tr) =>
      match runAux cfg r.prices pos1 rest with
      | .error e => .error e
      | .ok (nps, trs, poss) => .ok (np :: nps, tr ++ trs, pos1 :: poss)

/-- Modelled from the spec: `PortfolioSimulator.run` (§4.3), whose
`src/portfolio` module is missing from the source tree.  The initial
`Position` holds the configured initial allocation at NAV =
`initial_capital`, with peak initialized to the starting NAV and the
overlay inactive; `initRow` carries the initialization-date prices used for
the first date's return. -/
def run (cfg : SimConfig) (initRow : PriceRow) (initWeights : Weights)
    (rows : List DateRow) :
    Except SimError (List NAVPoint × List Trade × List Position) :=
  runAux cfg initRow
    ⟨initWeights, cfg.initialCapital, cfg.initialCapital, 0, false⟩ rows

/-- The signal value carried forward to date `d`: the value of the last
(date, value) entry of `sig` whose date is on or before `d`, `none` when
there is no such entry. -/
def lastValueOn (sig : List (ℕ × ℚ)) (d : ℕ) : Option ℚ :=
  ((sig.filter fun p => p.1 ≤ d).getLast?).map Prod.snd

/-- Embedded from the notebook's correlation-analysis cell
(`aligned_signal = signal_values.reindex(returns.index, method='ffill')`):
reindex the signal series onto the returns calendar `idx`, forward-filling
each date with the last signal observation on or before it; a date before
the first observation stays missing (`none`). -/
def reindexFfill (sig : List (ℕ × ℚ)) (idx : List ℕ) : List (ℕ × Option ℚ) :=
  idx.map fun d => (d, lastValueOn sig d)

/-! ### Helper lemmas -/

lemma listMean_const {c : ℚ} {xs : List ℚ} (h : ∀ x ∈ xs, x = c)
    (hne : xs ≠ []) : listMean xs = c := by
  have hlen : (xs.length : ℚ) ≠ 0 :=
    Nat.cast_ne_zero.mpr (List.length_pos.mpr hne).ne'
  have hsum : xs.sum = xs.length • c := by
    conv_lhs => rw [List.eq_replicate_of_mem h]
    simp
  rw [listMean, hsum, nsmul_eq_mul]
  exact mul_div_cancel_left₀ c hlen

lemma fullRiskOn_ne_fullRiskOff : fullRiskOn ≠ fullRiskOff := by
  norm_num [fullRiskOn, fullRiskOff, Weights.mk.injEq]

lemma neutral_ne_fullRiskOn : neutral ≠ fullRiskOn := by
  norm_num [neutral, fullRiskOn, Weights.mk.injEq]

lemma neutral_ne_fullRiskOff : neutral ≠ fullRiskOff := by
  norm_num [neutral, fullRiskOff, Weights.mk.injEq]

lemma listVar_const {c : ℚ} {xs : List ℚ} (h : ∀ x ∈ xs, x = c) :
    listVar xs = 0 := by
  rcases eq_or_ne xs [] with rfl | hne
  · simp [listVar]
  · have hm := listMean_const h hne
    have hz : ∀ y ∈ xs.map fun x => (x - listMean xs) ^ 2, y = 0 := by
      intro y hy
      obtain ⟨x, hx, rfl⟩ := List.mem_map.mp hy
      rw [h x hx, hm, sub_self]
      ring
    rw [listVar, List.sum_eq_zero hz, zero_div]

lemma sampleVar_const {c : ℚ} {xs : List ℚ} (h : ∀ x ∈ xs, x = c) :
    sampleVar xs = 0 := by
  rcases eq_or_ne xs [] with rfl | hne
  · simp [sampleVar]
  · have hm := listMean_const h hne
    have hz : ∀ y ∈ xs.map fun x => (x - listMean xs) ^ 2, y = 0 := by
      intro y hy
      obtain ⟨x, hx, rfl⟩ := List.mem_map.mp hy
      rw [h x hx, hm, sub_self]
      ring
    rw [sampleVar, List.sum_eq_zero hz, zero_div]

lemma windowAt_subset {vals : List ℚ} {i window : ℕ} :
    ∀ x ∈ windowAt vals i window, x ∈ vals := by
  intro x hx
  exact List.drop_subset _ _ (List.take_subset _ _ hx)

/-! ### C1, C9, C3 -/

/-- C1: with `low ≤ high`, `allocate` returns 100% risk-on exactly when the
signal is strictly above the high threshold, 100% risk-off exactly when it
is strictly below the low threshold, and the neutral 50/50 vector for every
signal in the closed band `[low, high]`, boundary values included. -/
theorem allocate_threshold_boundaries (s : ℚ) (th : Thresholds)
    (h : th.low ≤ th.high) :
    (allocate s th = .ok fullRiskOn ↔ th.high < s) ∧
    (allocate s th = .ok fullRiskOff ↔ s < th.low) ∧
    (th.low ≤ s → s ≤ th.high → allocate s th = .ok neutral) := by
  have hno : ¬ th.high < th.low := not_lt.mpr h
  unfold allocate
  rw [if_neg hno]
  split_ifs with h1 h2
  · refine ⟨by simp [h1], ?_, ?_⟩
    · simp only [Except.ok.injEq]
      constructor
      · intro hw; exact absurd hw fullRiskOn_ne_fullRiskOff
      · intro hs; exact absurd (lt_trans hs (lt_of_le_of_lt h h1)) (lt_irrefl s)
    · intro _ hs2; exact absurd h1 (not_lt.mpr hs2)
  · refine ⟨?_, by simp [h2], ?_⟩
    · simp only [Except.ok.injEq]
      constructor
      · intro hw; exact absurd hw fullRiskOn_ne_fullRiskOff.symm
      · intro hs; exact absurd hs h1
    · intro hs1 _; exact absurd h2 (not_lt.mpr hs1)
  · refine ⟨?_, ?_, fun _ _ => rfl⟩
    · simp only [Except.ok.injEq]
      constructor
      · intro hw; exact absurd hw neutral_ne_fullRiskOn
      · intro hs; exact absurd hs h1
    · simp only [Except.ok.injEq]
      constructor
      · intro hw; exact absurd hw neutral_ne_fullRiskOff
      · intro hs; exact absurd hs h2

/-- Witness for C1 at concrete inputs. -/
theorem allocate_threshold_boundaries_witness :
    allocate 1 ⟨1/2, -(1/2)⟩ = .ok fullRiskOn ∧
    allocate (1/2) ⟨1/2, -(1/2)⟩ = .ok neutral ∧
    allocate (-(1/2)) ⟨1/2, -(1/2)⟩ = .ok neutral :=
  ⟨(allocate_threshold_boundaries 1 ⟨1/2, -(1/2)⟩ (by norm_num)).1.mpr (by norm_num),
   (allocate_threshold_boundaries (1/2) ⟨1/2, -(1/2)⟩ (by norm_num)).2.2
     (by norm_num) (by norm_num),
   (allocate_threshold_boundaries (-(1/2)) ⟨1/2, -(1/2)⟩ (by norm_num)).2.2
     (by norm_num) (by norm_num)⟩

/-- C9: a missing or NaN signal value makes the allocation step return the
previous date's weight vector unchanged, and it never substitutes the
neutral 50/50 vector for a missing signal when the previous weights are
not neutral. -/
theorem allocStep_missing_signal_carry_forward :
    (∀ (prev : Weights) (th : Thresholds), allocStep prev none th = .ok prev) ∧
    (∀ (prev : Weights) (th : Thresholds), prev ≠ neutral →
      allocStep prev none th ≠ .ok neutral) := by
  refine ⟨fun prev th => rfl, fun prev th hne heq => hne ?_⟩
  have : (Except.ok prev : Except ConfigError Weights) = .ok neutral := heq
  exact Except.ok.inj this

/-- Witness for C9 at concrete inputs. -/
theorem allocStep_missing_signal_carry_forward_witness :
    allocStep fullRiskOn none ⟨1/2, -(1/2)⟩ = .ok fullRiskOn ∧
    allocStep fullRiskOn none ⟨1/2, -(1/2)⟩ ≠ .ok neutral :=
  ⟨allocStep_missing_signal_carry_forward.1 fullRiskOn ⟨1/2, -(1/2)⟩,
   allocStep_missing_signal_carry_forward.2 fullRiskOn ⟨1/2, -(1/2)⟩
     neutral_ne_fullRiskOn.symm⟩

/-- C3: on a constant input series, every defined output value of
`normalize` is exactly `0` (the zero-variance policy over a zero rolling
standard deviation), never an undefined or infinite value. -/
theorem normalize_const_zero (sqrt : ℚ → ℚ) (raw : List (ℕ × ℚ))
    (window : ℕ) (c : ℚ) (hc : ∀ p ∈ raw, p.2 = c) :
    ∀ q ∈ normalize sqrt raw window, q.2 = 0 := by
  intro q hq
  unfold normalize at hq
  split_ifs at hq with hlt
  · exact absurd hq (List.not_mem_nil q)
  · obtain ⟨i, _, rfl⟩ := List.mem_map.mp hq
    have hws : ∀ x ∈ windowAt (raw.map Prod.snd) i window, x = c := by
      intro x hx
      obtain ⟨p, hp, rfl⟩ := List.mem_map.mp (windowAt_subset x hx)
      exact hc p hp
    have hv : listVar (windowAt (raw.map Prod.snd) i window) = 0 :=
      listVar_const hws
    simp only [hv, if_pos]

/-- Witness for C3 at a concrete constant series. -/
theorem normalize_const_zero_witness :
    (∀ p ∈ [((0 : ℕ), (5 : ℚ)), (1, 5), (2, 5)], p.2 = 5) ∧
    ∀ q ∈ normalize (fun x => x) [((0 : ℕ), (5 : ℚ)), (1, 5), (2, 5)] 2,
      q.2 = 0 :=
  ⟨by norm_num,
   normalize_const_zero (fun x => x) [((0 : ℕ), (5 : ℚ)), (1, 5), (2, 5)] 2 5
     (by norm_num)⟩

/-- C8: on an input of length `n ≥ window`, `normalize` produces values
exactly at the dates with at least `window` observations up to and
including them: the output has `n - (window - 1)` values and its dates are
the input dates with the first `window - 1` dropped, so no earlier date
carries an output value. -/
theorem normalize_output_shape (sqrt : ℚ → ℚ) (raw : List (ℕ × ℚ))
    (window : ℕ) (hw : 0 < window) (hlen : window ≤ raw.length) :
    (normalize sqrt raw window).length = raw.length - (window - 1) ∧
    (normalize sqrt raw window).map Prod.fst =
      (raw.map Prod.fst).drop (window - 1) := by
  have hnot : ¬ raw.length < window := not_lt.mpr hlen
  constructor
  · rw [normalize, if_neg hnot, List.length_map, List.length_range]
    omega
  · rw [normalize, if_neg hnot]
    apply List.ext_getElem
    · simp only [List.length_map, List.length_range, List.length_drop]
      omega
    · intro i h1 h2
      simp only [List.length_map, List.length_range] at h1
      have hidx : i + window - 1 < raw.length := by omega
      simp only [List.getElem_map, List.getElem_range, List.getElem_drop]
      rw [List.getD_eq_getElem raw (0, 0) hidx]
      have heq : window - 1 + i = i + window - 1 := by omega
      simp only [heq]

/-- Witness for C8 at a concrete three-point series with window 2. -/
theorem normalize_output_shape_witness :
    (normalize (fun x => x) [((10 : ℕ), (1 : ℚ)), (11, 2), (12, 3)] 2).length
        = 2 ∧
    (normalize (fun x => x) [((10 : ℕ), (1 : ℚ)), (11, 2), (12, 3)] 2).map
        Prod.fst = [11, 12] :=
  ⟨((normalize_output_shape (fun x => x) [((10 : ℕ), (1 : ℚ)), (11, 2), (12, 3)]
      2 (by norm_num) (by norm_num)).1).trans (by norm_num),
   ((normalize_output_shape (fun x => x) [((10 : ℕ), (1 : ℚ)), (11, 2), (12, 3)]
      2 (by norm_num) (by norm_num)).2).trans (by norm_num)⟩

/-- C7: with any square-root function vanishing exactly at `0`, the Sharpe
ratio of a NAV series is exactly `0` whenever the standard deviation of the
daily returns is `0`, and equals `mean / stdev * sqrt 252` otherwise; the
notebook's rolling Sharpe likewise returns exactly `0` on every window of a
constant returns series. -/
theorem sharpe_zero_variance_policy (sqrt : ℚ → ℚ)
    (hsqrt : ∀ x : ℚ, sqrt x = 0 ↔ x = 0) :
    (∀ nav : List ℚ,
      (sampleVar (dailyReturns nav) = 0 → sharpeRatio sqrt nav = 0) ∧
      (sampleVar (dailyReturns nav) ≠ 0 →
        sharpeRatio sqrt nav =
          listMean (dailyReturns nav) / sqrt (sampleVar (dailyReturns nav)) *
            sqrt 252)) ∧
    (∀ (returns : List ℚ) (window : ℕ) (c : ℚ), (∀ r ∈ returns, r = c) →
      ∀ y ∈ rollingSharpe sqrt returns window, y = 0) := by
  constructor
  · intro nav
    constructor
    · intro hv
      unfold sharpeRatio
      rw [if_pos ((hsqrt _).mpr hv)]
    · intro hv
      unfold sharpeRatio
      rw [if_neg fun h0 => hv ((hsqrt _).mp h0)]
  · intro returns window c hc y hy
    unfold rollingSharpe at hy
    split_ifs at hy with hlt
    · exact absurd hy (List.not_mem_nil y)
    · obtain ⟨i, _, rfl⟩ := List.mem_map.mp hy
      have hx : ∀ x ∈ windowAt returns i window, x = c := fun x hx =>
        hc x (windowAt_subset x hx)
      rw [if_pos ((hsqrt _).mpr (sampleVar_const hx))]

/-- Witness for C7 on a constant NAV series. -/
theorem sharpe_zero_variance_policy_witness :
    sampleVar (dailyReturns [(1 : ℚ), 1, 1]) = 0 ∧
    sharpeRatio (fun x => x) [(1 : ℚ), 1, 1] = 0 :=
  have hv : sampleVar (dailyReturns [(1 : ℚ), 1, 1]) = 0 := by
    norm_num [dailyReturns, sampleVar, listMean, List.zip]
  ⟨hv,
   ((sharpe_zero_variance_policy (fun x => x) fun x => Iff.rfl).1
      [(1 : ℚ), 1, 1]).1 hv⟩

lemma lastValueOn_eq_of_max {d : ℕ} {sig : List (ℕ × ℚ)}
    (hs : sig.Pairwise fun p q => p.1 < q.1) {d' : ℕ} {v : ℚ}
    (hmem : (d', v) ∈ sig) (hle : d' ≤ d)
    (hmax : ∀ q ∈ sig, q.1 ≤ d → q.1 ≤ d') :
    lastValueOn sig d = some v := by
  induction sig with
  | nil => exact absurd hmem (List.not_mem_nil _)
  | cons p rest ih =>
    rw [List.pairwise_cons] at hs
    obtain ⟨hp, hrest⟩ := hs
    rcases List.mem_cons.mp hmem with heq | hmem2
    · subst heq
      have hfil : rest.filter (fun q => q.1 ≤ d) = [] := by
        rw [List.filter_eq_nil_iff]
        intro q hq
        simp only [decide_eq_true_eq]
        intro hqd
        exact absurd (hmax q (List.mem_cons_of_mem _ hq) hqd)
          (not_le.mpr (hp q hq))
      unfold lastValueOn
      rw [List.filter_cons, if_pos (by simpa using hle), hfil]
      rfl
    · have hpd : p.1 ≤ d := le_of_lt (lt_of_lt_of_le (hp _ hmem2) hle)
      have ihres := ih hrest hmem2
        (fun q hq hqd => hmax q (List.mem_cons_of_mem _ hq) hqd)
      unfold lastValueOn at ihres ⊢
      rw [List.filter_cons, if_pos (by simpa using hpd)]
      cases hfil : rest.filter fun q => q.1 ≤ d with
      | nil => rw [hfil] at ihres; exact absurd ihres (by simp)
      | cons b bs =>
        rw [hfil] at ihres
        rw [List.getLast?_cons_cons]
        exact ihres

/-- C10: the notebook's forward-fill alignment maps each date of the
returns calendar to the most recent signal value on or before it, leaves
dates preceding the first observation missing (`none`), and leaves every
value unchanged when the signal index already equals the returns index. -/
theorem aligned_signal_ffill_semantics (sig : List (ℕ × ℚ)) (idx : List ℕ)
    (hs : sig.Pairwise fun p q => p.1 < q.1) :
    (reindexFfill sig idx = idx.map fun d => (d, lastValueOn sig d)) ∧
    (∀ d ∈ idx, ∀ (d' : ℕ) (v : ℚ), (d', v) ∈ sig → d' ≤ d →
      (∀ q ∈ sig, q.1 ≤ d → q.1 ≤ d') → lastValueOn sig d = some v) ∧
    (∀ d ∈ idx, (∀ q ∈ sig, d < q.1) → lastValueOn sig d = none) ∧
    reindexFfill sig (sig.map Prod.fst) = sig.map fun p => (p.1, some p.2) := by
  refine ⟨rfl, ?_, ?_, ?_⟩
  · intro d _ d' v hmem hle hmax
    exact lastValueOn_eq_of_max hs hmem hle hmax
  · intro d _ hall
    have hfil : sig.filter (fun p => p.1 ≤ d) = [] := by
      rw [List.filter_eq_nil_iff]
      intro q hq
      simp only [decide_eq_true_eq]
      exact not_le.mpr (hall q hq)
    unfold lastValueOn
    rw [hfil]
    rfl
  · rw [reindexFfill, List.map_map]
    apply List.map_congr_left
    intro p hp
    simp only [Function.comp_apply]
    have hlast : lastValueOn sig p.1 = some p.2 :=
      lastValueOn_eq_of_max hs (by simpa using hp) le_rfl fun q hq hqd => hqd
    rw [hlast]

/-- Witness for C10 at a concrete signal series and calendar. -/
theorem aligned_signal_ffill_semantics_witness :
    lastValueOn [((1 : ℕ), (10 : ℚ)), (3, 30)] 2 = some 10 ∧
    lastValueOn [((1 : ℕ), (10 : ℚ)), (3, 30)] 0 = none :=
  have h := aligned_signal_ffill_semantics [((1 : ℕ), (10 : ℚ)), (3, 30)]
    [0, 2] (by norm_num)
  ⟨h.2.1 2 (by norm_num) 1 10 (by norm_num) (by norm_num)
      (by intro q hq; rcases List.mem_cons.mp hq with rfl | hq2
          · omega
          · rcases List.mem_cons.mp hq2 with rfl | hq3
            · omega
            · exact absurd hq3 (List.not_mem_nil q)),
   h.2.2.1 0 (by norm_num)
     (by intro q hq; rcases List.mem_cons.mp hq with rfl | hq2
         · omega
         · rcases List.mem_cons.mp hq2 with rfl | hq3
           · omega
           · exact absurd hq3 (List.not_mem_nil q))⟩

lemma checkAsset_ok_elim {date : ℕ} {a : Asset} {price : Option ℚ} {tw : ℚ}
    (h : checkAsset date a price tw = .ok ()) :
    (price = none → tw = 0) ∧ ∀ p, price = some p → 0 < p := by
  cases price with
  | none =>
    simp only [checkAsset] at h
    split_ifs at h with h0
    exact ⟨fun _ => h0, fun p hp => Option.noConfusion hp⟩
  | some p =>
    simp only [checkAsset] at h
    split_ifs at h with h0
    exact ⟨fun hn => Option.noConfusion hn,
      fun q hq => not_le.mp (Option.some.inj hq ▸ h0)⟩

lemma step_ok_elim {cfg : SimConfig} {prevRow : PriceRow} {pos : Position}
    {date : ℕ} {target : Weights} {row : PriceRow}
    {out : Position × NAVPoint × List Trade}
    (h : step cfg prevRow pos date target row = .ok out) :
    checkAsset date .riskOn row.pOn (effTargetOf pos target).wOn = .ok () ∧
    checkAsset date .riskOff row.pOff (effTargetOf pos target).wOff = .ok () ∧
    out = stepCore cfg prevRow pos date (effTargetOf pos target) row := by
  unfold step at h
  split at h
  · exact Except.noConfusion h
  · rename_i u heq
    split at h
    · exact Except.noConfusion h
    · rename_i u2 heq2
      cases u
      cases u2
      exact ⟨heq, heq2, (Except.ok.inj h).symm⟩

lemma step_ok_peak_dd {cfg : SimConfig} {prevRow : PriceRow} {pos : Position}
    {date : ℕ} {target : Weights} {row : PriceRow} {pos1 : Position}
    {np : NAVPoint} {tr : List Trade}
    (h : step cfg prevRow pos date target row = .ok (pos1, np, tr))
    (hpk : 0 < pos.peak) :
    pos.peak ≤ pos1.peak ∧ 0 < pos1.peak ∧ np.drawdown ≤ 0 := by
  obtain ⟨-, -, hout⟩ := step_ok_elim h
  have hp1 : pos1 = (stepCore cfg prevRow pos date (effTargetOf pos target) row).1 := by
    rw [← hout]
  have hnp : np = (stepCore cfg prevRow pos date (effTargetOf pos target) row).2.1 := by
    rw [← hout]
  subst hp1
  subst hnp
  have hpk2 : 0 < peakAfter cfg prevRow pos date (effTargetOf pos target) row :=
    lt_of_lt_of_le hpk (le_max_left _ _)
  refine ⟨le_max_left _ _, hpk2, ?_⟩
  show ddAfter cfg prevRow pos date (effTargetOf pos target) row ≤ 0
  unfold ddAfter
  rw [sub_nonpos, div_le_one hpk2]
  exact le_max_right _ _

lemma runAux_ok_lengths {cfg : SimConfig} :
    ∀ {rows : List DateRow} {prevRow : PriceRow} {pos : Position}
      {nps : List NAVPoint} {trs : List Trade} {poss : List Position},
      runAux cfg prevRow pos rows = .ok (nps, trs, poss) →
      nps.length = rows.length ∧ poss.length = rows.length := by
  intro rows
  induction rows with
  | nil =>
    intro prevRow pos nps trs poss h
    unfold runAux at h
    simp only [Except.ok.injEq, Prod.mk.injEq] at h
    obtain ⟨h1, -, h3⟩ := h
    simp [← h1, ← h3]
  | cons r rest ih =>
    intro prevRow pos nps trs poss h
    unfold runAux at h
    split at h
    · exact Except.noConfusion h
    · rename_i pos1 np tr heq
      split at h
      · exact Except.noConfusion h
      · rename_i out2 nps2 trs2 poss2 heq2
        simp only [Except.ok.injEq, Prod.mk.injEq] at h
        obtain ⟨h1, -, h3⟩ := h
        obtain ⟨ih1, ih3⟩ := ih heq2
        simp [← h1, ← h3, ih1, ih3]

lemma scenario_step_eq :
    step ⟨1/1000, 1/5, 1/10, 1000000⟩ ⟨some 100, some 100⟩
      ⟨neutral, 1000000, 1000000, 0, false⟩ 1 fullRiskOn ⟨some 100, some 100⟩ =
    .ok (⟨fullRiskOn, 999000, 1000000, 1000, false⟩,
         ⟨1, 999000, 0, -(1/1000), -(1/1000)⟩,
         [⟨1, .riskOn, 1/2, 500⟩, ⟨1, .riskOff, -(1/2), 500⟩]) := by
  norm_num [step, checkAsset, effTargetOf, stepCore, tradesAfter, tradesFor,
    driftWeights, grossReturnOf, assetReturn, navAfter, costAfter, peakAfter,
    ddAfter, overlayNext, fullRiskOn, fullRiskOff, neutral, List.filter_cons,
    max_def, abs]

lemma scenario_run_eq :
    run ⟨1/1000, 1/5, 1/10, 1000000⟩ ⟨some 100, some 100⟩ neutral
      [⟨1, fullRiskOn, ⟨some 100, some 100⟩⟩] =
    .ok ([⟨1, 999000, 0, -(1/1000), -(1/1000)⟩],
         [⟨1, .riskOn, 1/2, 500⟩, ⟨1, .riskOff, -(1/2), 500⟩],
         [⟨fullRiskOn, 999000, 1000000, 1000, false⟩]) := by
  simp only [run, runAux, scenario_step_eq, List.append_nil]

/-- C2: for every successful per-date step of the simulator,
`NAV_t = NAV_{t-1} * (1 + gross_return) - total_cost`, with each emitted
trade costing `|weight delta| * notional * cost_rate`; and in the concrete
single-date scenario with flat prices, `cost_rate = 0.001` and initial
capital 1,000,000, the target shift from 50/50 to 100/0 emits one trade of
absolute delta 0.5 per asset, total cost exactly 1000, and NAV exactly
999,000. -/
theorem nav_update_rule_and_cost_scenario :
    (∀ (cfg : SimConfig) (prevRow : PriceRow) (pos : Position) (date : ℕ)
       (target : Weights) (row : PriceRow) (pos1 : Position) (np : NAVPoint)
       (tr : List Trade),
       step cfg prevRow pos date target row = .ok (pos1, np, tr) →
       pos1.nav = pos.nav * (1 + np.grossReturn) - (tr.map Trade.cost).sum ∧
       ∀ t ∈ tr,
         t.cost = |t.weightDelta| * (pos.nav * (1 + np.grossReturn)) *
           cfg.costRate) ∧
    run ⟨1/1000, 1/5, 1/10, 1000000⟩ ⟨some 100, some 100⟩ neutral
        [⟨1, fullRiskOn, ⟨some 100, some 100⟩⟩] =
      .ok ([⟨1, 999000, 0, -(1/1000), -(1/1000)⟩],
           [⟨1, .riskOn, 1/2, 500⟩, ⟨1, .riskOff, -(1/2), 500⟩],
           [⟨fullRiskOn, 999000, 1000000, 1000, false⟩]) := by
  constructor
  · intro cfg prevRow pos date target row pos1 np tr h
    obtain ⟨-, -, hout⟩ := step_ok_elim h
    have hp1 : pos1 =
        (stepCore cfg prevRow pos date (effTargetOf pos target) row).1 := by
      rw [← hout]
    have hnp : np =
        (stepCore cfg prevRow pos date (effTargetOf pos target) row).2.1 := by
      rw [← hout]
    have htr : tr =
        (stepCore cfg prevRow pos date (effTargetOf pos target) row).2.2 := by
      rw [← hout]
    subst hp1
    subst hnp
    subst htr
    refine ⟨rfl, ?_⟩
    intro t ht
    have ht2 : t ∈ tradesAfter cfg prevRow pos date (effTargetOf pos target)
        row := ht
    unfold tradesAfter tradesFor at ht2
    obtain ⟨q, hq, rfl⟩ := List.mem_map.mp ht2
    rfl
  · exact scenario_run_eq

/-- Witness for C2: the NAV-update rule applied to the concrete scenario
step. -/
theorem nav_update_rule_witness :
    (⟨fullRiskOn, 999000, 1000000, 1000, false⟩ : Position).nav =
      (⟨neutral, 1000000, 1000000, 0, false⟩ : Position).nav *
        (1 + (⟨1, 999000, 0, -(1/1000), -(1/1000)⟩ : NAVPoint).grossReturn) -
      (([⟨1, .riskOn, 1/2, 500⟩, ⟨1, .riskOff, -(1/2), 500⟩] :
          List Trade).map Trade.cost).sum :=
  (nav_update_rule_and_cost_scenario.1 ⟨1/1000, 1/5, 1/10, 1000000⟩
    ⟨some 100, some 100⟩ ⟨neutral, 1000000, 1000000, 0, false⟩ 1 fullRiskOn
    ⟨some 100, some 100⟩ ⟨fullRiskOn, 999000, 1000000, 1000, false⟩
    ⟨1, 999000, 0, -(1/1000), -(1/1000)⟩
    [⟨1, .riskOn, 1/2, 500⟩, ⟨1, .riskOff, -(1/2), 500⟩] scenario_step_eq).1

/-- C4: along every successful simulation, starting from a positive peak,
the running peak NAV is non-decreasing over time and every reported
drawdown is `≤ 0`, for any price path. -/
theorem drawdown_peak_invariant :
    ∀ (cfg : SimConfig) (rows : List DateRow) (prevRow : PriceRow)
      (pos : Position) (nps : List NAVPoint) (trs : List Trade)
      (poss : List Position),
      0 < pos.peak →
      runAux cfg prevRow pos rows = .ok (nps, trs, poss) →
      List.Chain' (· ≤ ·) (pos.peak :: poss.map Position.peak) ∧
      ∀ np ∈ nps, np.drawdown ≤ 0 := by
  intro cfg rows
  induction rows with
  | nil =>
    intro prevRow pos nps trs poss hpk h
    unfold runAux at h
    simp only [Except.ok.injEq, Prod.mk.injEq] at h
    obtain ⟨h1, -, h3⟩ := h
    constructor
    · rw [← h3]
      simp
    · intro np hnp
      rw [← h1] at hnp
      exact absurd hnp (List.not_mem_nil np)
  | cons r rest ih =>
    intro prevRow pos nps trs poss hpk h
    unfold runAux at h
    split at h
    · exact Except.noConfusion h
    · rename_i pos1 np tr heq
      split at h
      · exact Except.noConfusion h
      · rename_i out2 nps2 trs2 poss2 heq2
        simp only [Except.ok.injEq, Prod.mk.injEq] at h
        obtain ⟨h1, -, h3⟩ := h
        obtain ⟨hle, hpos1, hdd⟩ := step_ok_peak_dd heq hpk
        obtain ⟨hchain, hdds⟩ := ih r.prices pos1 nps2 trs2 poss2 hpos1 heq2
        constructor
        · rw [← h3, List.map_cons]
          exact List.chain'_cons.mpr ⟨hle, hchain⟩
        · intro np2 hmem
          rw [← h1] at hmem
          rcases List.mem_cons.mp hmem with rfl | hmem2
          · exact hdd
          · exact hdds np2 hmem2

/-- Witness for C4 on the concrete one-date scenario. -/
theorem drawdown_peak_invariant_witness :
    List.Chain' (· ≤ ·)
      ((⟨neutral, 1000000, 1000000, 0, false⟩ : Position).peak ::
        ([⟨fullRiskOn, 999000, 1000000, 1000, false⟩] :
          List Position).map Position.peak) ∧
    ∀ np ∈ [(⟨1, 999000, 0, -(1/1000), -(1/1000)⟩ : NAVPoint)],
      np.drawdown ≤ 0 :=
  drawdown_peak_invariant ⟨1/1000, 1/5, 1/10, 1000000⟩
    [⟨1, fullRiskOn, ⟨some 100, some 100⟩⟩] ⟨some 100, some 100⟩
    ⟨neutral, 1000000, 1000000, 0, false⟩
    [⟨1, 999000, 0, -(1/1000), -(1/1000)⟩]
    [⟨1, .riskOn, 1/2, 500⟩, ⟨1, .riskOff, -(1/2), 500⟩]
    [⟨fullRiskOn, 999000, 1000000, 1000, false⟩]
    (by norm_num) scenario_run_eq

lemma scenario_overlay_step_eq :
    step ⟨1/1000, 1/5, 1/10, 1000000⟩ ⟨some 100, some 100⟩
      ⟨neutral, 1000000, 1000000, 0, true⟩ 1 fullRiskOn ⟨some 100, some 100⟩ =
    .ok (⟨fullRiskOff, 999000, 1000000, 1000, false⟩,
         ⟨1, 999000, 0, -(1/1000), -(1/1000)⟩,
         [⟨1, .riskOn, -(1/2), 500⟩, ⟨1, .riskOff, 1/2, 500⟩]) := by
  norm_num [step, checkAsset, effTargetOf, stepCore, tradesAfter, tradesFor,
    driftWeights, grossReturnOf, assetReturn, navAfter, costAfter, peakAfter,
    ddAfter, overlayNext, fullRiskOn, fullRiskOff, neutral, List.filter_cons,
    max_def, abs]

/-- C5: the risk overlay behaves as a hysteresis state machine.  While the
overlay is active, the step's resulting weights are the de-risked 100%
risk-off allocation regardless of the signal target; a drawdown strictly
below `-max_drawdown_limit` leaves the overlay active for the next date
(activating it if it was not); with the overlay active, a drawdown
strictly above `-drawdown_reentry` deactivates it; and a drawdown inside
the closed hysteresis band `[-max_drawdown_limit, -drawdown_reentry]`
leaves the overlay state unchanged. -/
theorem risk_overlay_hysteresis :
    ∀ (cfg : SimConfig) (prevRow : PriceRow) (pos : Position) (date : ℕ)
      (target : Weights) (row : PriceRow) (pos1 : Position) (np : NAVPoint)
      (tr : List Trade),
      step cfg prevRow pos date target row = .ok (pos1, np, tr) →
      (pos.overlayActive = true → pos1.weights = fullRiskOff) ∧
      (cfg.drawdownReentry ≤ cfg.maxDrawdownLimit →
        np.drawdown < -cfg.maxDrawdownLimit → pos1.overlayActive = true) ∧
      (pos.overlayActive = true → -cfg.drawdownReentry < np.drawdown →
        pos1.overlayActive = false) ∧
      (-cfg.maxDrawdownLimit ≤ np.drawdown →
        np.drawdown ≤ -cfg.drawdownReentry →
        pos1.overlayActive = pos.overlayActive) := by
  intro cfg prevRow pos date target row pos1 np tr h
  obtain ⟨-, -, hout⟩ := step_ok_elim h
  have hp1 : pos1 =
      (stepCore cfg prevRow pos date (effTargetOf pos target) row).1 := by
    rw [← hout]
  have hnp : np =
      (stepCore cfg prevRow pos date (effTargetOf pos target) row).2.1 := by
    rw [← hout]
  subst hp1
  subst hnp
  refine ⟨?_, ?_, ?_, ?_⟩
  · intro hov
    show effTargetOf pos target = fullRiskOff
    unfold effTargetOf
    rw [if_pos hov]
  · intro hband hdd
    show overlayNext cfg pos.overlayActive
      (ddAfter cfg prevRow pos date (effTargetOf pos target) row) = true
    have hdd2 : ddAfter cfg prevRow pos date (effTargetOf pos target) row <
        -cfg.maxDrawdownLimit := hdd
    unfold overlayNext
    cases pos.overlayActive with
    | false => rw [if_neg (by simp), if_pos hdd2]
    | true =>
      rw [if_pos rfl, if_neg (not_lt.mpr (le_of_lt
        (lt_of_lt_of_le hdd2 (by linarith))))]
  · intro hov hdd
    show overlayNext cfg pos.overlayActive
      (ddAfter cfg prevRow pos date (effTargetOf pos target) row) = false
    have hdd2 : -cfg.drawdownReentry <
        ddAfter cfg prevRow pos date (effTargetOf pos target) row := hdd
    unfold overlayNext
    rw [if_pos hov, if_pos hdd2]
  · intro hlo hhi
    have hlo2 : -cfg.maxDrawdownLimit ≤
        ddAfter cfg prevRow pos date (effTargetOf pos target) row := hlo
    have hhi2 : ddAfter cfg prevRow pos date (effTargetOf pos target) row ≤
        -cfg.drawdownReentry := hhi
    show overlayNext cfg pos.overlayActive
      (ddAfter cfg prevRow pos date (effTargetOf pos target) row) =
      pos.overlayActive
    unfold overlayNext
    cases pos.overlayActive with
    | false => rw [if_neg (by simp), if_neg (not_lt.mpr hlo2)]
    | true => rw [if_pos rfl, if_neg (not_lt.mpr hhi2)]

/-- Witness for C5: with the overlay active on the concrete scenario step,
the resulting weights are forced to 100% risk-off even though the signal
target was 100% risk-on, and the recovered drawdown deactivates the
overlay. -/
theorem risk_overlay_hysteresis_witness :
    (⟨fullRiskOff, 999000, 1000000, 1000, false⟩ : Position).weights =
      fullRiskOff ∧
    (⟨fullRiskOff, 999000, 1000000, 1000, false⟩ : Position).overlayActive =
      false :=
  have h := risk_overlay_hysteresis ⟨1/1000, 1/5, 1/10, 1000000⟩
    ⟨some 100, some 100⟩ ⟨neutral, 1000000, 1000000, 0, true⟩ 1 fullRiskOn
    ⟨some 100, some 100⟩ ⟨fullRiskOff, 999000, 1000000, 1000, false⟩
    ⟨1, 999000, 0, -(1/1000), -(1/1000)⟩
    [⟨1, .riskOn, -(1/2), 500⟩, ⟨1, .riskOff, 1/2, 500⟩]
    scenario_overlay_step_eq
  ⟨h.1 rfl, h.2.2.1 rfl (by norm_num)⟩

/-- C6: a successful step implies no data offence on its date (every
missing price belongs to an asset with zero effective target weight, and
every present price is strictly positive); a missing risk-on price with
nonzero effective target weight makes the step fail with `DataGapError`,
and a non-positive risk-on price makes it fail with `InvalidPriceError`,
identifying the date and asset; and a successful run returns a complete
NAV series and position trace, one point per input date — never a partial
series. -/
theorem data_errors_abort :
    (∀ (cfg : SimConfig) (prevRow : PriceRow) (pos : Position) (date : ℕ)
       (target : Weights) (row : PriceRow)
       (out : Position × NAVPoint × List Trade),
       step cfg prevRow pos date target row = .ok out →
       (row.pOn = none → (effTargetOf pos target).wOn = 0) ∧
       (row.pOff = none → (effTargetOf pos target).wOff = 0) ∧
       (∀ p, row.pOn = some p → 0 < p) ∧
       (∀ p, row.pOff = some p → 0 < p)) ∧
    (∀ (cfg : SimConfig) (prevRow : PriceRow) (pos : Position) (date : ℕ)
       (target : Weights) (row : PriceRow),
       row.pOn = none → (effTargetOf pos target).wOn ≠ 0 →
       step cfg prevRow pos date target row =
         .error (.dataGap date .riskOn)) ∧
    (∀ (cfg : SimConfig) (prevRow : PriceRow) (pos : Position) (date : ℕ)
       (target : Weights) (row : PriceRow) (p : ℚ),
       row.pOn = some p → p ≤ 0 →
       step cfg prevRow pos date target row =
         .error (.invalidPrice date .riskOn)) ∧
    (∀ (cfg : SimConfig) (prevRow : PriceRow) (pos : Position)
       (rows : List DateRow) (nps : List NAVPoint) (trs : List Trade)
       (poss : List Position),
       runAux cfg prevRow pos rows = .ok (nps, trs, poss) →
       nps.length = rows.length ∧ poss.length = rows.length) := by
  refine ⟨?_, ?_, ?_, ?_⟩
  · intro cfg prevRow pos date target row out h
    obtain ⟨hon, hoff, -⟩ := step_ok_elim h
    obtain ⟨h1, h2⟩ := checkAsset_ok_elim hon
    obtain ⟨h3, h4⟩ := checkAsset_ok_elim hoff
    exact ⟨h1, h3, h2, h4⟩
  · intro cfg prevRow pos date target row hnone htw
    have hc : checkAsset date .riskOn row.pOn (effTargetOf pos target).wOn =
        .error (.dataGap date .riskOn) := by
      rw [hnone]
      simp only [checkAsset]
      rw [if_neg htw]
    unfold step
    rw [hc]
  · intro cfg prevRow pos date target row p hsome hple
    have hc : checkAsset date .riskOn row.pOn (effTargetOf pos target).wOn =
        .error (.invalidPrice date .riskOn) := by
      rw [hsome]
      simp only [checkAsset]
      rw [if_pos hple]
    unfold step
    rw [hc]
  · intro cfg prevRow pos rows nps trs poss h
    exact runAux_ok_lengths h

/-- Witness for C6 at concrete offending and successful inputs. -/
theorem data_errors_abort_witness :
    step ⟨1/1000, 1/5, 1/10, 1000000⟩ ⟨some 100, some 100⟩
        ⟨neutral, 1000000, 1000000, 0, false⟩ 1 fullRiskOn ⟨none, some 100⟩ =
      .error (.dataGap 1 .riskOn) ∧
    step ⟨1/1000, 1/5, 1/10, 1000000⟩ ⟨some 100, some 100⟩
        ⟨neutral, 1000000, 1000000, 0, false⟩ 1 fullRiskOn
        ⟨some (-5), some 100⟩ =
      .error (.invalidPrice 1 .riskOn) :=
  ⟨data_errors_abort.2.1 ⟨1/1000, 1/5, 1/10, 1000000⟩ ⟨some 100, some 100⟩
    ⟨neutral, 1000000, 1000000, 0, false⟩ 1 fullRiskOn ⟨none, some 100⟩ rfl
    (by norm_num [effTargetOf, fullRiskOn]),
   data_errors_abort.2.2.1 ⟨1/1000, 1/5, 1/10, 1000000⟩ ⟨some 100, some 100⟩
    ⟨neutral, 1000000, 1000000, 0, false⟩ 1 fullRiskOn ⟨some (-5), some 100⟩
    (-5) rfl (by norm_num)⟩

end MacroBacktester
